import Mathlib

/-!
Shallow embedding of `src/py/newt/config.py` (class `NewtConfigParser`).

Python values that flow through the configuration builder are YAML scalars
(strings, integers, `None`), lists, and string-keyed dicts.  Python dicts
preserve insertion order; we embed them as ordered association lists without
duplicate keys.  Python set operations (`keys() & keys()`, key-set
differences) iterate in an unspecified order, and Python `dict` equality is
order-insensitive, so the embedding fixes one deterministic key order
(left-operand order first, then remaining right-operand keys); all claims
compare values up to that determinization.

Functions of the source that recurse through nested values are embedded with
an explicit `Nat` fuel argument (structural recursion on the fuel, so that
every definition reduces in the kernel); `none` means the fuel ran out.  For
`_resolve`, whose `while` loop genuinely need not terminate, `none` at every
fuel models divergence of the Python loop.
-/

namespace Newt

/-- A Python value as used by the config builder: scalar, sequence or
string-keyed mapping. -/
inductive Val where
  | str : String → Val
  | int : Int → Val
  | null : Val
  | list : List Val → Val
  | dict : List (String × Val) → Val
deriving Repr

/-- Python `d[k]` lookup on an (order-preserving, duplicate-free) dict. -/
def lookupD : List (String × Val) → String → Option Val
  | [], _ => none
  | (k, v) :: t, key => if k = key then some v else lookupD t key

/-- Python `d[k] = v`: replace in place if the key exists, else append. -/
def setKey : List (String × Val) → String → Val → List (String × Val)
  | [], key, v => [(key, v)]
  | (k, w) :: t, key, v =>
    if k = key then (key, v) :: t else (k, w) :: setKey t key v

/-! ## `_resolve` (config.py lines 117-126)

```python
def _resolve(self, name):
    value = self._defs
    while isinstance(value, dict):
        if name not in value:
            break
        name = value[name]
        if isinstance(name, (list, dict)):
            self.log.warning('Cannot resolve %s', ...)
            break
    return name
```

`value` is bound once to the definitions table and never reassigned, so the
loop hops from name to name through the same flat table.  One fuel unit is
one loop iteration; `none` means the Python loop has not returned within the
given number of iterations.  A non-string scalar name is never a key of the
(string-keyed) table, so its membership test fails and the loop breaks. -/

/-- The `while` loop of `_resolve`, for a definitions table that is a dict. -/
def resolveGo (d : List (String × Val)) : Nat → Val → Option Val
  | 0, _ => none
  | n + 1, name =>
    match name with
    | .str s =>
      match lookupD d s with
      | none => some (.str s)
      | some (.list l) => some (.list l)
      | some (.dict m) => some (.dict m)
      | some v => resolveGo d n v
    | other => some other

/-- Model of `_resolve(name)`: if the table is not a dict the loop body never runs and
the name is returned as-is; if it is a dict, a list- or dict-valued `name`
makes the very first membership test raise `TypeError: unhashable type`
(modelled as `.error`); otherwise the loop runs. -/
def resolve (defs : Val) (n : Nat) (name : Val) : Option (Except String Val) :=
  match defs with
  | .dict d =>
    match name with
    | .list _ => some (.error "unhashable type: list")
    | .dict _ => some (.error "unhashable type: dict")
    | nm => (resolveGo d n nm).map (fun v => Except.ok v)
  | _ => some (.ok name)

/-- `_resolve` (the loop) terminates on `x` with result `v`. -/
def Resolves (d : List (String × Val)) (x v : Val) : Prop :=
  ∃ n, resolveGo d n x = some v

/-- The names consumed by successive "continue" hops of the `_resolve` loop
within the first `n` iterations (each recorded name was found in the table
and mapped to a non-container value, so the loop went around again). -/
def resolveTrace (d : List (String × Val)) : Nat → Val → List String
  | 0, _ => []
  | n + 1, name =>
    match name with
    | .str s =>
      match lookupD d s with
      | none => []
      | some (.list _) => []
      | some (.dict _) => []
      | some v => s :: resolveTrace d n v
    | _ => []

/-- The chained table of spec §8: `{"A": "B", "B": "C", "C": 7}`. -/
def chainDefs : List (String × Val) :=
  [("A", Val.str "B"), ("B", Val.str "C"), ("C", Val.int 7)]

/-- A cyclic table on which the `_resolve` loop never returns. -/
def cycleDefs : List (String × Val) :=
  [("A", Val.str "B"), ("B", Val.str "A")]

example : resolveGo chainDefs 4 (Val.str "A") = some (Val.int 7) := rfl
example : resolveGo chainDefs 1 (Val.str "X") = some (Val.str "X") := rfl
example : resolveGo cycleDefs 5 (Val.str "A") = none := rfl
example : resolve (Val.dict chainDefs) 9 (Val.str "A") = some (.ok (Val.int 7)) := rfl
example : resolve (Val.int 3) 9 (Val.str "A") = some (.ok (Val.str "A")) := rfl
example : resolveTrace chainDefs 4 (Val.str "A") = ["A", "B", "C"] := rfl

/-! ## `merge_containers` (config.py lines 155-197)

```python
def merge_containers(self, obj_a, obj_b, ignore_error=False):
    def desc(obj): ...
    if isinstance(obj_a, list):
        list_c = []; list_c.extend(obj_a)
        if isinstance(obj_b, list): list_c.extend(obj_b)
        elif obj_b is not None: list_c.append(obj_b)
        return list_c
    if isinstance(obj_a, dict):
        if obj_b is None: return deepcopy(obj_a)
        dict_c = {}
        try: overlapping_keys = obj_a.keys() & obj_b.keys()
        except AttributeError:
            msg = f'[dict + b]: merge failure'
            if ignore_error: self.log.error(msg); return deepcopy(obj_a)
            else: raise ValueError(msg)
        for key in overlapping_keys:
            try: dict_c[key] = self.merge_containers(obj_a[key], obj_b[key], ...)
            except ValueError as exc: raise ValueError(f'key.exc')
        for key in obj_a.keys() - overlapping_keys: dict_c[key] = deepcopy(obj_a[key])
        for key in obj_b.keys() - overlapping_keys: dict_c[key] = deepcopy(obj_b[key])
        return dict_c
    return obj_b
```

Determinization: the dict/dict case walks the left dict's keys in order
(merging where the key also occurs on the right, deep-copying otherwise) and
then appends the remaining right-only keys in right order; Python produces
the same key/value sets in an unspecified set-iteration order.  In the
embedding the right-only suffix is computed by removing each consumed key
from the right dict as the walk descends, which yields exactly that order.
`deepcopy` is the identity on pure values.  `none` is exhausted fuel (the
Python function always terminates; concrete claims use ample fuel). -/

/-- Source helper `desc(obj)`: lists and dicts print their class name,
anything else is interpolated directly into the message. -/
def desc : Val → String
  | .list _ => "list"
  | .dict _ => "dict"
  | .str s => s
  | .int i => toString i
  | .null => "None"

/-- Model of `merge_containers(obj_a, obj_b, ignore_error)`; `some (.error e)` is a
raised `ValueError` carrying the dotted key path accumulated on unwind. -/
def merge_containers : Nat → Bool → Val → Val → Option (Except String Val)
  | 0, _, _, _ => none
  | _ + 1, _, .list xs, .list ys => some (.ok (.list (xs ++ ys)))
  | _ + 1, _, .list xs, .null => some (.ok (.list xs))
  | _ + 1, _, .list xs, b => some (.ok (.list (xs ++ [b])))
  | _ + 1, _, .dict xs, .null => some (.ok (.dict xs))
  | _ + 1, _, .dict [], .dict ys => some (.ok (.dict ys))
  | n + 1, ig, .dict ((k, v) :: t), .dict ys =>
    match lookupD ys k with
    | some w =>
      match merge_containers n ig v w with
      | none => none
      | some (.error e) => some (.error (k ++ "." ++ e))
      | some (.ok m) =>
        match merge_containers n ig (.dict t) (.dict (ys.filter (fun p => p.1 ≠ k))) with
        | none => none
        | some (.error e) => some (.error e)
        | some (.ok (.dict rest)) => some (.ok (.dict ((k, m) :: rest)))
        | some (.ok _) => none
    | none =>
      match merge_containers n ig (.dict t) (.dict ys) with
      | none => none
      | some (.error e) => some (.error e)
      | some (.ok (.dict rest)) => some (.ok (.dict ((k, v) :: rest)))
      | some (.ok _) => none
  | _ + 1, ig, .dict xs, b =>
    if ig then some (.ok (.dict xs))
    else some (.error ("[dict + " ++ desc b ++ "]: merge failure"))
  | _ + 1, _, _, b => some (.ok b)

example :
    merge_containers 9 true
      (Val.dict [("x", Val.int 1)]) (Val.dict [("x", Val.dict [("y", Val.int 2)])])
      = some (.ok (Val.dict [("x", Val.dict [("y", Val.int 2)])])) := rfl
example :
    merge_containers 9 false
      (Val.dict [("x", Val.dict [("y", Val.int 2)])]) (Val.dict [("x", Val.int 1)])
      = some (.error "x.[dict + 1]: merge failure") := rfl
example :
    merge_containers 9 true
      (Val.dict [("x", Val.dict [("y", Val.int 2)])]) (Val.dict [("x", Val.int 1)])
      = some (.ok (Val.dict [("x", Val.dict [("y", Val.int 2)])])) := rfl
example :
    merge_containers 9 false (Val.list [Val.int 1, Val.int 2]) (Val.list [Val.int 1, Val.int 2])
      = some (.ok (Val.list [Val.int 1, Val.int 2, Val.int 1, Val.int 2])) := rfl
example :
    merge_containers 9 false (Val.dict [("a", Val.int 1)]) (Val.dict [("b", Val.int 2)])
      = some (.ok (Val.dict [("a", Val.int 1), ("b", Val.int 2)])) := rfl

/-! ## `_parse` (config.py lines 53-81): key-path expansion

```python
for ydef in ydefs:
    top = {}
    prev = []
    for ykey, yval in ydef.items():
        source = top
        while True:
            kparts = ykey.split('.', 1)
            if len(kparts) == 1:
                if not isinstance(source, dict) and prev:
                    source = prev[0][prev[1]] = {'': prev[0][prev[1]]}
                source[ykey] = yval
                break
            if kparts[0] not in source:
                source[kparts[0]] = {}
            prev = source, kparts[0]
            source, ykey = source[kparts[0]], kparts[1]
    contents[modname] = top
```

`top` starts as a dict and `prev` is set at every descent, so `source` can
only be a non-dict after a descent in the current pair; the `prev` wrap then
replaces exactly the parent slot just descended into, which the functional
recursion returns upward.  Descending into a non-dict at a non-final key
segment raises `TypeError` in Python (membership test / item assignment on a
scalar); that is the `none` of `expandGo` besides fuel, and the fuel
`length + 1` can never itself run out since each round strictly shortens the
key. -/

/-- Python `ykey.split('.', 1)`: `none` when the key has no separator, else the part
before the first `'.'` and the remainder. -/
def splitOnce : List Char → Option (List Char × List Char)
  | [] => none
  | c :: t =>
    if c = '.' then some ([], t)
    else
      match splitOnce t with
      | none => none
      | some (h, r) => some (c :: h, r)

/-- One round of the inner `while True` walk storing `yval` under the dotted
key `key` below `source`. -/
def expandGo : Nat → Val → List Char → Val → Option Val
  | 0, _, _, _ => none
  | n + 1, source, key, yval =>
    match splitOnce key with
    | none =>
      match source with
      | .dict d => some (.dict (setKey d (String.mk key) yval))
      | s => some (.dict (setKey [("", s)] (String.mk key) yval))
    | some (h, rest) =>
      match source with
      | .dict d =>
        match expandGo n ((lookupD d (String.mk h)).getD (.dict [])) rest yval with
        | none => none
        | some c => some (.dict (setKey d (String.mk h) c))
      | _ => none

/-- Store one `(ykey, yval)` pair of a document entry into the tree `top`. -/
def expandPair (top : Val) (k : String) (v : Val) : Option Val :=
  expandGo (k.data.length + 1) top k.data v

/-- Fold the pairs of one top-level document entry into a fresh tree. -/
def expandEntryLoop : Val → List (String × Val) → Option Val
  | top, [] => some top
  | top, (k, v) :: rest =>
    match expandPair top k v with
    | none => none
    | some top2 => expandEntryLoop top2 rest

/-- Expansion of one top-level document entry (`top = {}` then the pair loop). -/
def expandEntry (pairs : List (String × Val)) : Option Val :=
  expandEntryLoop (.dict []) pairs

/-- The `for ydef in ydefs` loop: each entry is expanded into a fresh `top`
and assigned to `contents[modname]`. -/
def parseLoop (modname : String) :
    List (String × Val) → List (List (String × Val)) → Option (List (String × Val))
  | contents, [] => some contents
  | contents, entry :: rest =>
    match expandEntry entry with
    | none => none
    | some top => parseLoop modname (setKey contents modname top) rest

/-- Model of `_parse` on one file: the documents `ydefs` (each already a mapping; a
non-mapping entry raises before this point) against the module name. -/
def parseContents (modname : String) (ydefs : List (List (String × Val))) :
    Option (List (String × Val)) :=
  parseLoop modname [] ydefs

example :
    expandEntry [("a.b.c", Val.int 1), ("a.b.d", Val.int 2)]
      = some (Val.dict [("a", Val.dict [("b", Val.dict [("c", Val.int 1), ("d", Val.int 2)])])]) :=
  rfl
example :
    expandEntry [("a", Val.int 1), ("a.b", Val.int 2)]
      = some (Val.dict [("a", Val.dict [("", Val.int 1), ("b", Val.int 2)])]) := rfl
example :
    parseContents "m" [[("a", Val.int 1)], [("b", Val.int 2)]]
      = some [("m", Val.dict [("b", Val.int 2)])] := rfl

/-! ## `_get` (config.py lines 108-115)

```python
for pth in path.split('.'):
    try: items = items[pth]
    except KeyError: return {}
return items
```

Only `KeyError` (a dict missing the key) is caught; indexing a scalar or a
list with a string component raises `TypeError`, which propagates. -/

/-- Python `path.split('.')` (all parts). -/
def splitAllGo (acc : List Char) : List Char → List String
  | [] => [String.mk acc.reverse]
  | c :: t =>
    if c = '.' then String.mk acc.reverse :: splitAllGo [] t
    else splitAllGo (c :: acc) t

/-- The component walk of `_get`. -/
def getPath : Val → List String → Except String Val
  | items, [] => .ok items
  | .dict d, p :: rest =>
    match lookupD d p with
    | none => .ok (.dict [])
    | some v => getPath v rest
  | _, _ :: _ => .error "TypeError: not subscriptable"

/-- Model of `_get(items, path)`. -/
def getAt (items : Val) (path : String) : Except String Val :=
  getPath items (splitAllGo [] path.data)

example : getAt (Val.dict [("pkg", Val.dict [("init", Val.int 3)])]) "pkg.init"
    = .ok (Val.int 3) := rfl
example : getAt (Val.dict [("name", Val.str "x")]) "pkg.init" = .ok (Val.dict []) := rfl
example : getAt (Val.dict [("pkg", Val.int 5)]) "pkg.init"
    = .error "TypeError: not subscriptable" := rfl

/-! ## `NEWT_CRE.sub` (config.py line 24 and 146)

`NEWT_CRE = recompile(r'MYNEWT_VAL(\()?(_)?(.*)(?(1)\))')`, substituted with
group 3.  After the literal `MYNEWT_VAL`: if a `(` follows and a `)` occurs
later, the greedy `.*` makes group 3 run to the last `)` (an optional `_`
right after the `(` is group 2); without a usable `(`, group 3 is the rest of
the text after an optional `_`.  The embedding rewrites the first match (the
strings of this development contain at most one occurrence and no newline). -/

/-- Drop `marker` from the front of `s` if it is literally there. -/
def dropPre : List Char → List Char → Option (List Char)
  | [], s => some s
  | _ :: _, [] => none
  | c :: p, d :: s => if c = d then dropPre p s else none

/-- Split at the first occurrence of `MYNEWT_VAL`: text before it and text
after the literal. -/
def findMarker : List Char → Option (List Char × List Char)
  | [] => none
  | c :: t =>
    match dropPre "MYNEWT_VAL".data (c :: t) with
    | some rest => some ([], rest)
    | none =>
      match findMarker t with
      | none => none
      | some (p, r) => some (c :: p, r)

/-- Split at the first `')'`: the part before it and the part after. -/
def splitFirstParen : List Char → Option (List Char × List Char)
  | [] => none
  | c :: t =>
    if c = ')' then some ([], t)
    else
      match splitFirstParen t with
      | none => none
      | some (a, b) => some (c :: a, b)

/-- The optional `(_)?` group. -/
def stripUnderscore : List Char → List Char
  | '_' :: t => t
  | t => t

/-- Model of `NEWT_CRE.sub(r'\3', s)` on the first match. -/
def newtSub (s : String) : String :=
  match findMarker s.data with
  | none => s
  | some (pre, r) =>
    match r with
    | '(' :: body =>
      match splitFirstParen body.reverse with
      | some (afterRev, beforeRev) =>
        String.mk (pre ++ stripUnderscore beforeRev.reverse ++ afterRev.reverse)
      | none => String.mk (pre ++ r)
    | _ => String.mk (pre ++ stripUnderscore r)

example : newtSub "MYNEWT_VAL(FOO_BAR)" = "FOO_BAR" := rfl
example : newtSub "MYNEWT_VAL_FOO" = "FOO" := rfl
example : newtSub "MYNEWT_VALFOO" = "FOO" := rfl
example : newtSub "plain text" = "plain text" := rfl
example : newtSub "x = MYNEWT_VAL(A) + 1" = "x = A + 1" := rfl

/-! ## `_build` and its `cleanup` (config.py lines 128-153)

```python
def cleanup(obj):
    if not isinstance(obj, dict): return obj
    for keyword in keywords:
        if keyword in obj: return None
    cobj = {}
    for okey, oval in obj.items():
        if okey in {'description', }: continue
        value = cleanup(oval)
        if value is not None:
            if isinstance(value, dict) and len(value) == 1 and 'value' in value:
                value = value.pop('value')
            if isinstance(value, str) and value:
                value = self.NEWT_CRE.sub(r'\3', value)
            cobj[okey] = value
    return cobj
output = {}
for val in items.values():
    val = cleanup(val)
    output = self.merge_containers(output, val, True)
return output
```

Python `None` (a pruned subtree, or a YAML null passing through) is
`Val.null`; the `Option` layer is only fuel.  The recursion walks a dict's
pair list through `.dict rest`; re-testing the sentinel keywords on the
shorter list is harmless since the full list already had none of them. -/

/-- Single-field `value` wrapper unwrapping, applied to a cleaned value. -/
def unwrapValue : Val → Val
  | .dict [("value", u)] => u
  | v => v

/-- Macro normalization of non-empty string values. -/
def normStr : Val → Val
  | .str s => if s = "" then .str s else .str (newtSub s)
  | v => v

/-- Model of `cleanup(obj)` under sentinel `keywords`. -/
def cleanup (kws : List String) : Nat → Val → Option Val
  | 0, _ => none
  | n + 1, .dict d =>
    if kws.any (fun kw => (lookupD d kw).isSome) then some .null
    else
      match d with
      | [] => some (.dict [])
      | (k, v) :: rest =>
        match cleanup kws n (.dict rest) with
        | some (.dict tail) =>
          if k = "description" then some (.dict tail)
          else
            match cleanup kws n v with
            | none => none
            | some .null => some (.dict tail)
            | some w => some (.dict ((k, normStr (unwrapValue w)) :: tail))
        | _ => none
  | _ + 1, v => some v

/-- The accumulation loop of `_build`. -/
def buildLoop (n : Nat) (kws : List String) : Val → List (String × Val) → Option (Except String Val)
  | out, [] => some (.ok out)
  | out, (_, v) :: rest =>
    match cleanup kws n v with
    | none => none
    | some cv =>
      match merge_containers n true out cv with
      | none => none
      | some (.error e) => some (.error e)
      | some (.ok out2) => buildLoop n kws out2 rest

/-- Model of `_build(items, *keywords)`. -/
def build (n : Nat) (kws : List String) (items : List (String × Val)) :
    Option (Except String Val) :=
  buildLoop n kws (.dict []) items

example : cleanup ["deprecated"] 9 (Val.dict [("a", Val.int 1), ("deprecated", Val.int 1)])
    = some Val.null := rfl
example : cleanup [] 9 (Val.dict [("k", Val.dict [("value", Val.int 5)]), ("description", Val.str "d")])
    = some (Val.dict [("k", Val.int 5)]) := rfl
example : cleanup [] 9 (Val.dict [("k", Val.str "MYNEWT_VAL_FOO"), ("n", Val.null)])
    = some (Val.dict [("k", Val.str "FOO")]) := rfl

/-! ## `_build_syscfg` (config.py lines 104-106) -/

/-- Model of `_build_syscfg`: the system-configuration aggregate (built with the
`deprecated` sentinel) and the definitions table extracted at `syscfg.defs`. -/
def build_syscfg (n : Nat) (syscfgs : List (String × Val)) :
    Option (Except String (Val × Val)) :=
  match build n ["deprecated"] syscfgs with
  | none => none
  | some (.error e) => some (.error e)
  | some (.ok sys) =>
    match getAt sys "syscfg.defs" with
    | .error e => some (.error e)
    | .ok defs => some (.ok (sys, defs))

/-! ## `_build_pkg` (config.py lines 83-92)

```python
inits = self._get(self._build(self._pkgs), 'pkg.init')
cinits = {}
for name, value in inits.items():
    if isinstance(value, dict): continue
    cinits[name] = self._resolve(value)
self._inits.clear()
for func in sorted(cinits, key=lambda f: cinits[f]):
    self._inits.append(func)
```

`sorted` is CPython's stable sort of the entry names by resolved value;
comparing values of incompatible types raises `TypeError`.  The embedding
uses a stable insertion sort (each next element inserted into the sorted
prefix before the first strictly greater key), which computes the same
stable order whenever all keys are mutually comparable and performs the same
single comparison in the two-element case; Python's exact comparison
sequence for longer incomparable inputs is implementation detail. -/

/-- Python `type(x).__name__` for the error message of an unsupported `<`. -/
def pyType : Val → String
  | .str _ => "str"
  | .int _ => "int"
  | .null => "NoneType"
  | .list _ => "list"
  | .dict _ => "dict"

/-- Python `isinstance(value, (list, dict))` negated: a scalar in the Python
sense. -/
def isScalar : Val → Bool
  | .dict _ => false
  | .list _ => false
  | _ => true

/-- An integer value. -/
def isInt : Val → Bool
  | .int _ => true
  | _ => false

/-- Python `==` (order-insensitive on dicts; `False` across types; faithful
for duplicate-free dicts).  Fueled; only list elements recurse. -/
def valEq : Nat → Val → Val → Option Bool
  | 0, _, _ => none
  | _ + 1, .str a, .str b => some (decide (a = b))
  | _ + 1, .int a, .int b => some (decide (a = b))
  | _ + 1, .null, .null => some true
  | _ + 1, .list [], .list [] => some true
  | n + 1, .list (x :: xs), .list (y :: ys) =>
    match valEq n x y with
    | none => none
    | some false => some false
    | some true => valEq n (.list xs) (.list ys)
  | _ + 1, .dict [], .dict ys => some ys.isEmpty
  | n + 1, .dict ((k, v) :: xs), .dict ys =>
    match lookupD ys k with
    | none => some false
    | some w =>
      match valEq n v w with
      | none => none
      | some false => some false
      | some true => valEq n (.dict xs) (.dict (ys.filter (fun p => p.1 ≠ k)))
  | _ + 1, _, _ => some false

/-- Python `a < b`: defined for int/int, str/str and (lexicographically)
list/list; anything else raises `TypeError`. -/
def pyLt : Nat → Val → Val → Option (Except String Bool)
  | 0, _, _ => none
  | _ + 1, .int a, .int b => some (.ok (decide (a < b)))
  | _ + 1, .str a, .str b => some (.ok (decide (a < b)))
  | _ + 1, .list [], .list [] => some (.ok false)
  | _ + 1, .list [], .list (_ :: _) => some (.ok true)
  | _ + 1, .list (_ :: _), .list [] => some (.ok false)
  | n + 1, .list (x :: xs), .list (y :: ys) =>
    match valEq n x y with
    | none => none
    | some false => pyLt n x y
    | some true => pyLt n (.list xs) (.list ys)
  | _ + 1, a, b =>
    some (.error ("< not supported between instances of " ++ pyType a ++ " and " ++ pyType b))

/-- Insert one named entry into the prefix already sorted by value: before
the first strictly greater key, after equal keys (stability). -/
def insertSorted (n : Nat) (x : String × Val) :
    List (String × Val) → Option (Except String (List (String × Val)))
  | [] => some (.ok [x])
  | y :: t =>
    match pyLt n x.2 y.2 with
    | none => none
    | some (.error e) => some (.error e)
    | some (.ok true) => some (.ok (x :: y :: t))
    | some (.ok false) =>
      match insertSorted n x t with
      | none => none
      | some (.error e) => some (.error e)
      | some (.ok r) => some (.ok (y :: r))

/-- Python `sorted(cinits, key=lambda f: cinits[f])` as a stable insertion sort over
the (name, resolved value) pairs in insertion order. -/
def sortLoop (n : Nat) : List (String × Val) → List (String × Val) → Option (Except String (List (String × Val)))
  | acc, [] => some (.ok acc)
  | acc, x :: rest =>
    match insertSorted n x acc with
    | none => none
    | some (.error e) => some (.error e)
    | some (.ok acc2) => sortLoop n acc2 rest

/-- The `cinits` loop of `_build_pkg`: mapping-valued entries are skipped,
every other value is resolved (a list value raises inside `_resolve`). -/
def build_cinits (defs : Val) (n : Nat) : List (String × Val) → Option (Except String (List (String × Val)))
  | [] => some (.ok [])
  | (name, v) :: rest =>
    match v with
    | .dict _ => build_cinits defs n rest
    | w =>
      match resolve defs n w with
      | none => none
      | some (.error e) => some (.error e)
      | some (.ok r) =>
        match build_cinits defs n rest with
        | none => none
        | some (.error e) => some (.error e)
        | some (.ok tail) => some (.ok ((name, r) :: tail))

/-- Model of `_build_pkg` from the `pkg.init` entries: the ordered list `self._inits`
of initializer names. -/
def build_pkg (n : Nat) (defs : Val) (inits : List (String × Val)) :
    Option (Except String (List String)) :=
  match build_cinits defs n inits with
  | none => none
  | some (.error e) => some (.error e)
  | some (.ok cs) =>
    match sortLoop n [] cs with
    | none => none
    | some (.error e) => some (.error e)
    | some (.ok ys) => some (.ok (ys.map Prod.fst))

/-- The package half of `scan`: `_build(self._pkgs)` (no sentinel keyword),
`_get(..., 'pkg.init')`, then `_build_pkg`'s ordering against a definitions
table.  A non-dict `pkg.init` subtree would make `inits.items()` raise. -/
def build_pkg_pipeline (n : Nat) (pkgs : List (String × Val)) (defs : Val) :
    Option (Except String (List String)) :=
  match build n [] pkgs with
  | none => none
  | some (.error e) => some (.error e)
  | some (.ok tree) =>
    match getAt tree "pkg.init" with
    | .error e => some (.error e)
    | .ok (.dict inits) => build_pkg n defs inits
    | .ok v => some (.error ("AttributeError: " ++ pyType v ++ " has no attribute items"))

example :
    build_pkg 9 (Val.dict [("P1", Val.int 5), ("P2", Val.int 1)])
      [("init_a", Val.str "P1"), ("init_b", Val.str "P2")]
      = some (.ok ["init_b", "init_a"]) := rfl
example :
    build_pkg 9 (Val.dict [("P", Val.dict [("z", Val.int 1)])])
      [("i1", Val.str "P"), ("i2", Val.int 3)]
      = some (.error "< not supported between instances of int and dict") := rfl
example :
    build_pkg 9 (Val.dict [("P", Val.dict [("z", Val.int 1)])]) [("i1", Val.str "P")]
      = some (.ok ["i1"]) := rfl
example :
    build_pkg_pipeline 20
      [("m", Val.dict [("pkg", Val.dict [("init", Val.dict [("f", Val.int 3)]), ("deprecated", Val.int 1)])])]
      (Val.dict [])
      = some (.ok ["f"]) := rfl
example :
    build_syscfg 20
      [("m", Val.dict [("pkg", Val.dict [("init", Val.dict [("f", Val.int 3)]), ("deprecated", Val.int 1)])])]
      = some (.ok (Val.dict [], Val.dict [])) := rfl
example :
    build_pkg_pipeline 20 [("m", Val.dict [("name", Val.str "x")])] (Val.dict [])
      = some (.ok []) := rfl

/-! ## Shared lemmas -/

/-- A found key is among the dict's keys. -/
theorem lookupD_mem {d : List (String × Val)} {k : String} {v : Val}
    (h : lookupD d k = some v) : k ∈ d.map Prod.fst := by
  induction d with
  | nil => simp [lookupD] at h
  | cons p t ih =>
    obtain ⟨k1, v1⟩ := p
    by_cases hk : k1 = k
    · subst hk; simp
    · simp only [lookupD, if_neg hk] at h
      simpa using Or.inr (ih h)

/-- Overwriting the same key twice keeps only the second write. -/
theorem setKey_setKey (c : List (String × Val)) (k : String) (v w : Val) :
    setKey (setKey c k v) k w = setKey c k w := by
  induction c with
  | nil => simp [setKey]
  | cons p t ih =>
    obtain ⟨k1, v1⟩ := p
    by_cases h : k1 = k
    · subst h; simp [setKey]
    · simp [setKey, h, ih]

/-! ## C1 -/

/-- C1 (counterexample): `merge({"x": 1}, {"x": {"y": 2}})` hits the
scalar-vs-anything branch at key `x`, so the right-hand mapping wins: with
the tolerant flag the result is `{"x": {"y": 2}}`, not `{"x": 1}`, and with
the flag unset the merge still returns that value instead of raising. -/
theorem merge_scalar_left_cex :
    merge_containers 9 true (Val.dict [("x", Val.int 1)])
        (Val.dict [("x", Val.dict [("y", Val.int 2)])])
      = some (.ok (Val.dict [("x", Val.dict [("y", Val.int 2)])]))
    ∧ merge_containers 9 false (Val.dict [("x", Val.int 1)])
        (Val.dict [("x", Val.dict [("y", Val.int 2)])])
      = some (.ok (Val.dict [("x", Val.dict [("y", Val.int 2)])]))
    ∧ Val.dict [("x", Val.dict [("y", Val.int 2)])] ≠ Val.dict [("x", Val.int 1)] :=
  ⟨rfl, rfl, by simp⟩

/-- C1 (amended): the merge-conflict behaviour of the claim belongs to the
mirrored operands, where the left value is the mapping: with the tolerant
flag `merge({"x": {"y": 2}}, {"x": 1})` returns the deep copy
`{"x": {"y": 2}}` of the left tree (the conflict is only logged), and with
the flag unset it fails with an error naming the key path `x`. -/
theorem merge_conflict_left_mapping :
    merge_containers 9 true (Val.dict [("x", Val.dict [("y", Val.int 2)])])
        (Val.dict [("x", Val.int 1)])
      = some (.ok (Val.dict [("x", Val.dict [("y", Val.int 2)])]))
    ∧ merge_containers 9 false (Val.dict [("x", Val.dict [("y", Val.int 2)])])
        (Val.dict [("x", Val.int 1)])
      = some (.error "x.[dict + 1]: merge failure") :=
  ⟨rfl, rfl⟩

/-! ## C5 -/

/-- C5: key-path expansion of one document entry: `{"a.b.c": 1, "a.b.d": 2}`
expands to `{"a": {"b": {"c": 1, "d": 2}}}`, and `{"a": 1, "a.b": 2}` (in
that order) expands to `{"a": {"": 1, "b": 2}}`, the earlier scalar being
preserved under the empty-string key. -/
theorem expand_examples :
    expandEntry [("a.b.c", Val.int 1), ("a.b.d", Val.int 2)]
      = some (Val.dict [("a", Val.dict [("b", Val.dict [("c", Val.int 1), ("d", Val.int 2)])])])
    ∧ expandEntry [("a", Val.int 1), ("a.b", Val.int 2)]
      = some (Val.dict [("a", Val.dict [("", Val.int 1), ("b", Val.int 2)])]) :=
  ⟨rfl, rfl⟩

/-! ## C3 -/

/-- C3 (counterexample): a document of two top-level entries `{"a": 1}` then
`{"b": 2}` does not fold both into one Module Tree: the parse result holds
only the last entry's tree `{"b": 2}`, and the earlier key `a` (present in
no later entry) is gone. -/
theorem parse_earlier_entry_dropped :
    parseContents "m" [[("a", Val.int 1)], [("b", Val.int 2)]]
      = some [("m", Val.dict [("b", Val.int 2)])]
    ∧ lookupD [("b", Val.int 2)] "a" = none :=
  ⟨rfl, rfl⟩

/-- Lemma: `parseLoop` over a snoc list of successfully expanding entries overwrites
the module slot with each entry's fresh tree. -/
theorem parseLoop_append_single (modname : String) (es : List (List (String × Val)))
    (e : List (String × Val)) (t : Val) (he : expandEntry e = some t) :
    ∀ c, (∀ x ∈ es, (expandEntry x).isSome) →
      parseLoop modname c (es ++ [e]) = some (setKey c modname t) := by
  induction es with
  | nil => intro c _; simp [parseLoop, he]
  | cons x es ih =>
    intro c h
    obtain ⟨tx, htx⟩ := Option.isSome_iff_exists.mp (h x (by simp))
    have hrest : ∀ y ∈ es, (expandEntry y).isSome := fun y hy => h y (by simp [hy])
    calc parseLoop modname c ((x :: es) ++ [e])
        = parseLoop modname (setKey c modname tx) (es ++ [e]) := by
          simp [parseLoop, htx]
      _ = some (setKey (setKey c modname tx) modname t) := ih _ hrest
      _ = some (setKey c modname t) := by rw [setKey_setKey]

/-- C3 (amended): each top-level entry of a document is expanded into a fresh
tree that replaces the document's slot in the parse result, so only the last
entry's (expanded) keys survive: for every document whose entries all expand,
the resulting Module Tree is exactly the expansion of the last entry, and
keys set only by earlier entries do not appear. -/
theorem parse_last_entry_wins (modname : String) (es : List (List (String × Val)))
    (e : List (String × Val)) (t : Val)
    (h : ∀ x ∈ es, (expandEntry x).isSome) (he : expandEntry e = some t) :
    parseContents modname (es ++ [e]) = some [(modname, t)] := by
  unfold parseContents
  rw [parseLoop_append_single modname es e t he [] h]
  rfl

/-- C3 (witness): the amended theorem at a three-entry document. -/
theorem parse_last_entry_wins_witness :
    parseContents "mod" [[("k1", Val.int 1)], [("k2", Val.int 2)], [("k3", Val.int 3)]]
      = some [("mod", Val.dict [("k3", Val.int 3)])] :=
  parse_last_entry_wins "mod" [[("k1", Val.int 1)], [("k2", Val.int 2)]]
    [("k3", Val.int 3)] (Val.dict [("k3", Val.int 3)]) (by decide) rfl

/-! ## C6 -/

/-- C6: with definitions `{"A": "B", "B": "C", "C": 7}` the resolver chain
reaches the terminal scalar, `resolve("A") == 7`; and for every table and
every name absent from it (in particular the empty table and `"X"`), the
resolver returns the name itself unchanged. -/
theorem resolve_chain_and_fallback :
    (∀ (d : List (String × Val)) (s : String), lookupD d s = none →
        Resolves d (Val.str s) (Val.str s))
    ∧ Resolves chainDefs (Val.str "A") (Val.int 7) := by
  refine ⟨fun d s h => ⟨1, ?_⟩, ⟨4, rfl⟩⟩
  simp [resolveGo, h]

/-- C6 (witness): the absent-name fallback at the empty table and name `X`,
and the chain example. -/
theorem resolve_chain_and_fallback_witness :
    Resolves [] (Val.str "X") (Val.str "X") ∧ Resolves chainDefs (Val.str "A") (Val.int 7) :=
  ⟨resolve_chain_and_fallback.1 [] "X" rfl, resolve_chain_and_fallback.2⟩

/-! ## C4 -/

/-- C4 (counterexample): with definitions `{"P": {"z": 1}}` and the two
`pkg.init` entries `{"i1": "P", "i2": 3}`, entry `i1` resolves to the
non-scalar `{"z": 1}`; ordering then compares the priority `3` with that
mapping and the run fails with a `TypeError` instead of producing an ordered
list. -/
theorem orderer_nonscalar_cex :
    build_pkg 9 (Val.dict [("P", Val.dict [("z", Val.int 1)])])
        [("i1", Val.str "P"), ("i2", Val.int 3)]
      = some (.error "< not supported between instances of int and dict") := rfl

/-- C4 (amended): a resolver chain landing on a non-scalar terminal is never
itself fatal: for every table, a hop onto a mapping- or sequence-valued
definition ends the chain with that value as the entry's resolved result
(only a warning is logged), and resolving a scalar-valued entry never
raises, whatever the table.  Whether the ordering then proceeds depends on
the comparisons the sort makes between resolved keys: a mapping-valued key
admits no comparison with any key in either direction — every such
comparison raises `TypeError` and fails the run, as in the claim's scenario
once the sort compares it — while sequence-valued keys compare like Python
lists, so entries resolving to sequence terminals can still order
successfully, as can a sole mapping-terminal entry that is never compared. -/
theorem nonscalar_resolution_not_fatal :
    (∀ (d : List (String × Val)) (s : String) (v : Val) (n : Nat),
        lookupD d s = some v → isScalar v = false →
        resolveGo d (n + 1) (Val.str s) = some v)
    ∧ (∀ (defs : Val) (n : Nat) (v : Val), isScalar v = true →
        ∀ e, resolve defs n v ≠ some (.error e))
    ∧ (∀ (n : Nat) (xn yn : String) (d : List (String × Val)) (yv : Val)
        (t : List (String × Val)), 1 ≤ n →
        insertSorted n (xn, Val.dict d) ((yn, yv) :: t)
          = some (.error ("< not supported between instances of dict and " ++ pyType yv)))
    ∧ (∀ (n : Nat) (xn yn : String) (d : List (String × Val)) (yv : Val)
        (t : List (String × Val)), 1 ≤ n →
        insertSorted n (yn, yv) ((xn, Val.dict d) :: t)
          = some (.error ("< not supported between instances of " ++ pyType yv ++ " and dict")))
    ∧ build_pkg 9 (Val.dict [("P", Val.list [Val.int 1]), ("Q", Val.list [Val.int 2])])
        [("i1", Val.str "P"), ("i2", Val.str "Q")]
      = some (.ok ["i1", "i2"])
    ∧ build_pkg 9 (Val.dict [("P", Val.dict [("z", Val.int 1)])]) [("i1", Val.str "P")]
      = some (.ok ["i1"]) := by
  refine ⟨?_, ?_, ?_, ?_, rfl, rfl⟩
  · intro d s v n hl hscal
    cases v with
    | list l => simp [resolveGo, hl]
    | dict m => simp [resolveGo, hl]
    | str u => simp [isScalar] at hscal
    | int i => simp [isScalar] at hscal
    | null => simp [isScalar] at hscal
  · intro defs n v hscal e
    cases defs with
    | dict d =>
      cases v with
      | str s =>
        cases hg : resolveGo d n (Val.str s) with
        | none => simp [resolve, hg]
        | some w => simp [resolve, hg]
      | int i =>
        cases hg : resolveGo d n (Val.int i) with
        | none => simp [resolve, hg]
        | some w => simp [resolve, hg]
      | null =>
        cases hg : resolveGo d n Val.null with
        | none => simp [resolve, hg]
        | some w => simp [resolve, hg]
      | list l => simp [isScalar] at hscal
      | dict m => simp [isScalar] at hscal
    | str s => simp [resolve]
    | int i => simp [resolve]
    | null => simp [resolve]
    | list l => simp [resolve]
  · intro n xn yn d yv t hn
    obtain ⟨m, rfl⟩ := Nat.exists_eq_succ_of_ne_zero (Nat.one_le_iff_ne_zero.mp hn)
    cases yv with
    | str s => rfl
    | int i => rfl
    | null => rfl
    | list l => rfl
    | dict d2 => rfl
  · intro n xn yn d yv t hn
    obtain ⟨m, rfl⟩ := Nat.exists_eq_succ_of_ne_zero (Nat.one_le_iff_ne_zero.mp hn)
    cases yv with
    | str s => rfl
    | int i => rfl
    | null => rfl
    | list l => cases l <;> rfl
    | dict d2 => rfl

/-- C4 (witness): the amended theorem exercised — a chain hop onto a
concrete mapping terminal returns it, resolving that entry raises nothing,
and the mapping-valued key fails its sort comparison in both directions. -/
theorem nonscalar_resolution_witness :
    resolveGo [("P", Val.dict [("z", Val.int 1)])] 3 (Val.str "P")
      = some (Val.dict [("z", Val.int 1)])
    ∧ resolve (Val.dict [("P", Val.dict [("z", Val.int 1)])]) 3 (Val.str "P")
      ≠ some (.error "boom")
    ∧ insertSorted 1 ("i", Val.dict []) [("j", Val.int 1)]
      = some (.error "< not supported between instances of dict and int")
    ∧ insertSorted 1 ("j", Val.int 1) [("i", Val.dict [])]
      = some (.error "< not supported between instances of int and dict") :=
  ⟨nonscalar_resolution_not_fatal.1 [("P", Val.dict [("z", Val.int 1)])] "P"
      (Val.dict [("z", Val.int 1)]) 2 rfl rfl,
   nonscalar_resolution_not_fatal.2.1 (Val.dict [("P", Val.dict [("z", Val.int 1)])]) 3
      (Val.str "P") rfl "boom",
   nonscalar_resolution_not_fatal.2.2.1 1 "i" "j" [] (Val.int 1) [] (by decide),
   nonscalar_resolution_not_fatal.2.2.2.1 1 "i" "j" [] (Val.int 1) [] (by decide)⟩

/-! ## C9 -/

/-- C9: the `deprecated` sentinel is passed only when building the
system-configuration aggregate, not the package aggregate: one and the same
module tree `{"pkg": {"init": {"f": 3}, "deprecated": 1}}` is pruned to
nothing by the syscfg build (its `pkg` subtree carries `deprecated`), yet
survives the package build unpruned and still contributes its `pkg.init`
entry `f` to the ordered initializer list. -/
theorem deprecated_prunes_only_syscfg :
    build_syscfg 20
        [("m", Val.dict [("pkg", Val.dict [("init", Val.dict [("f", Val.int 3)]),
                                           ("deprecated", Val.int 1)])])]
      = some (.ok (Val.dict [], Val.dict []))
    ∧ build_pkg_pipeline 20
        [("m", Val.dict [("pkg", Val.dict [("init", Val.dict [("f", Val.int 3)]),
                                           ("deprecated", Val.int 1)])])]
        (Val.dict [])
      = some (.ok ["f"]) :=
  ⟨rfl, rfl⟩

/-! ## C10 -/

/-- C10 (counterexample): on the tree `{"pkg": 5}` the lookup of path
`pkg.init` reaches the scalar `5` with the component `init` still to
process; Python's `5['init']` raises `TypeError`, which `_get` does not
catch (it only catches `KeyError`), so the lookup fails instead of
returning an empty mapping. -/
theorem get_nonmapping_cex :
    getAt (Val.dict [("pkg", Val.int 5)]) "pkg.init"
      = .error "TypeError: not subscriptable" := rfl

/-- C10 (amended): when the level being looked up is a mapping, a missing
path component makes the subtree lookup return an empty mapping rather than
fail (only a non-mapping level raises); consequently an empty `pkg.init`
table yields zero initializer entries and an empty ordered list for any
definitions table and fuel, as does a merged package tree with no `pkg.init`
subtree. -/
theorem get_missing_defaults_empty :
    (∀ (d : List (String × Val)) (k : String) (rest : List String),
        lookupD d k = none → getPath (Val.dict d) (k :: rest) = .ok (Val.dict []))
    ∧ (∀ (defs : Val) (n : Nat), build_pkg n defs [] = some (.ok []))
    ∧ build_pkg_pipeline 20 [("m", Val.dict [("name", Val.str "x")])] (Val.dict [])
      = some (.ok []) := by
  refine ⟨fun d k rest h => ?_, fun defs n => rfl, rfl⟩
  simp [getPath, h]

/-- C10 (witness): the amended theorem at a concrete mapping level missing
`pkg` and at the empty entry table. -/
theorem get_missing_defaults_witness :
    getPath (Val.dict [("a", Val.int 1)]) ["pkg", "init"] = .ok (Val.dict [])
    ∧ build_pkg 5 (Val.dict []) [] = some (.ok []) :=
  ⟨get_missing_defaults_empty.1 [("a", Val.int 1)] "pkg" ["init"] rfl,
   get_missing_defaults_empty.2.1 (Val.dict []) 5⟩

/-! ## C2 -/

/-- C2 (counterexample): on the cyclic table `{"A": "B", "B": "A"}` the
`_resolve` loop starting from `"A"` never returns: no number of loop
iterations produces a result. -/
theorem resolve_cycle_diverges : ¬ ∃ v, Resolves cycleDefs (Val.str "A") v := by
  have key : ∀ n, resolveGo cycleDefs n (Val.str "A") = none
      ∧ resolveGo cycleDefs n (Val.str "B") = none := by
    intro n
    induction n with
    | zero => exact ⟨rfl, rfl⟩
    | succ n ih => exact ⟨ih.2, ih.1⟩
  rintro ⟨v, n, hn⟩
  rw [(key n).1] at hn
  exact Option.noConfusion hn

/-- If the `_resolve` loop has not returned after `n` iterations, it took
`n` "continue" hops, so the hop trace has length `n`. -/
theorem resolveGo_none_trace_length (d : List (String × Val)) :
    ∀ (n : Nat) (x : Val), resolveGo d n x = none → (resolveTrace d n x).length = n := by
  intro n
  induction n with
  | zero => intro x _; rfl
  | succ n ih =>
    intro x hx
    cases x with
    | str s =>
      cases hl : lookupD d s with
      | none => simp [resolveGo, hl] at hx
      | some v =>
        cases v with
        | list l => simp [resolveGo, hl] at hx
        | dict m => simp [resolveGo, hl] at hx
        | str u =>
          simp only [resolveGo, hl] at hx
          simp only [resolveTrace, hl, List.length_cons]
          rw [ih _ hx]
        | int i =>
          simp only [resolveGo, hl] at hx
          simp only [resolveTrace, hl, List.length_cons]
          rw [ih _ hx]
        | null =>
          simp only [resolveGo, hl] at hx
          simp only [resolveTrace, hl, List.length_cons]
          rw [ih _ hx]
    | int i => simp [resolveGo] at hx
    | null => simp [resolveGo] at hx
    | list l => simp [resolveGo] at hx
    | dict m => simp [resolveGo] at hx

/-- Every name on the hop trace was found in the table. -/
theorem resolveTrace_subset (d : List (String × Val)) :
    ∀ (n : Nat) (x : Val) (s : String), s ∈ resolveTrace d n x → s ∈ d.map Prod.fst := by
  intro n
  induction n with
  | zero => intro x s hs; simp [resolveTrace] at hs
  | succ n ih =>
    intro x s hs
    cases x with
    | str s0 =>
      cases hl : lookupD d s0 with
      | none => simp [resolveTrace, hl] at hs
      | some v =>
        cases v with
        | list l => simp [resolveTrace, hl] at hs
        | dict m => simp [resolveTrace, hl] at hs
        | str u =>
          simp only [resolveTrace, hl, List.mem_cons] at hs
          rcases hs with rfl | hs
          · exact lookupD_mem hl
          · exact ih _ s hs
        | int i =>
          simp only [resolveTrace, hl, List.mem_cons] at hs
          rcases hs with rfl | hs
          · exact lookupD_mem hl
          · exact ih _ s hs
        | null =>
          simp only [resolveTrace, hl, List.mem_cons] at hs
          rcases hs with rfl | hs
          · exact lookupD_mem hl
          · exact ih _ s hs
    | int i => simp [resolveTrace] at hs
    | null => simp [resolveTrace] at hs
    | list l => simp [resolveTrace] at hs
    | dict m => simp [resolveTrace] at hs

/-- C2 (amended): the resolution loop terminates whenever its chain of
lookups never revisits a name — within at most one hop more than the table
has entries — because each hop consumes a distinct key of the table; on a
table with a cyclic chain (a revisited name) the loop runs forever. -/
theorem resolve_terminates_of_nodup_trace (d : List (String × Val)) (x : Val)
    (h : (resolveTrace d (d.length + 1) x).Nodup) :
    ∃ v, resolveGo d (d.length + 1) x = some v := by
  cases hr : resolveGo d (d.length + 1) x with
  | some v => exact ⟨v, rfl⟩
  | none =>
    exfalso
    have hlen := resolveGo_none_trace_length d (d.length + 1) x hr
    have hsub : resolveTrace d (d.length + 1) x ⊆ d.map Prod.fst :=
      fun s hs => resolveTrace_subset d _ x s hs
    have hle := (List.Nodup.subperm h hsub).length_le
    rw [hlen, List.length_map] at hle
    omega

/-- C2 (witness): the chained table's trace from `"A"` is duplicate-free and
resolution indeed terminates there. -/
theorem resolve_terminates_witness :
    (resolveTrace chainDefs (chainDefs.length + 1) (Val.str "A")).Nodup
    ∧ ∃ v, resolveGo chainDefs (chainDefs.length + 1) (Val.str "A") = some v :=
  ⟨by decide, resolve_terminates_of_nodup_trace chainDefs (Val.str "A") (by decide)⟩

/-! ## C8 -/

/-- Trees containing no sequence values anywhere. -/
inductive SeqFree : Val → Prop where
  | str (s : String) : SeqFree (.str s)
  | int (i : Int) : SeqFree (.int i)
  | null : SeqFree .null
  | dict (d : List (String × Val)) : (∀ p ∈ d, SeqFree p.2) → SeqFree (.dict d)

/-- Well-formed embedded values: every mapping level is free of duplicate
keys, as Python dicts are by construction. -/
inductive WFv : Val → Prop where
  | str (s : String) : WFv (.str s)
  | int (i : Int) : WFv (.int i)
  | null : WFv .null
  | list (l : List Val) : (∀ v ∈ l, WFv v) → WFv (.list l)
  | dict (d : List (String × Val)) : (d.map Prod.fst).Nodup → (∀ p ∈ d, WFv p.2) →
      WFv (.dict d)

/-- Filtering out an absent key changes nothing. -/
theorem filter_ne_of_not_mem (t : List (String × Val)) (k : String)
    (h : k ∉ t.map Prod.fst) : t.filter (fun p => p.1 ≠ k) = t := by
  rw [List.filter_eq_self]
  intro p hp
  simp only [decide_eq_true_eq]
  intro e
  exact h (e ▸ List.mem_map_of_mem Prod.fst hp)

/-- C8: merge is idempotent on sequence-free trees — `merge(a, a) == a`
whenever `a` contains no sequence value (for either conflict flag and any
sufficient fuel) — and additive on sequences: two sequences concatenate
(`merge([1,2],[1,2]) == [1,2,1,2]`), and a present non-sequence,
non-absent right operand is appended to a left sequence as one element. -/
theorem merge_idempotent_and_additive :
    (∀ (n : Nat) (ig : Bool) (a : Val), SeqFree a → WFv a → sizeOf a ≤ n →
        merge_containers n ig a a = some (.ok a))
    ∧ (∀ (n : Nat) (ig : Bool) (xs ys : List Val),
        merge_containers (n + 1) ig (.list xs) (.list ys) = some (.ok (.list (xs ++ ys))))
    ∧ merge_containers 9 false (Val.list [Val.int 1, Val.int 2]) (Val.list [Val.int 1, Val.int 2])
      = some (.ok (Val.list [Val.int 1, Val.int 2, Val.int 1, Val.int 2]))
    ∧ (∀ (n : Nat) (ig : Bool) (xs : List Val) (b : Val), b ≠ .null → (∀ l, b ≠ .list l) →
        merge_containers (n + 1) ig (.list xs) b = some (.ok (.list (xs ++ [b])))) := by
  refine ⟨?_, fun n ig xs ys => rfl, rfl, ?_⟩
  · intro n
    induction n with
    | zero =>
      intro ig a _ _ hs
      exfalso
      cases a <;> simp_arith at hs
    | succ n ih =>
      intro ig a hsf hwf hs
      cases a with
      | str s => rfl
      | int i => rfl
      | null => rfl
      | list l => cases hsf
      | dict d =>
        cases d with
        | nil => rfl
        | cons p t =>
          obtain ⟨k, v⟩ := p
          have hall : ∀ q ∈ (k, v) :: t, SeqFree q.2 := by
            cases hsf with | dict _ h => exact h
          have hnd : (((k, v) :: t).map Prod.fst).Nodup := by
            cases hwf with | dict _ h _ => exact h
          have hallw : ∀ q ∈ (k, v) :: t, WFv q.2 := by
            cases hwf with | dict _ _ h => exact h
          simp only [List.map_cons, List.nodup_cons] at hnd
          simp only [Val.dict.sizeOf_spec, List.cons.sizeOf_spec, Prod.mk.sizeOf_spec] at hs
          have hl : lookupD ((k, v) :: t) k = some v := by simp [lookupD]
          have hv := ih ig v (hall (k, v) (by simp)) (hallw (k, v) (by simp)) (by omega)
          have ht := ih ig (Val.dict t)
            (SeqFree.dict t (fun q hq => hall q (by simp [hq])))
            (WFv.dict t hnd.2 (fun q hq => hallw q (by simp [hq])))
            (by simp only [Val.dict.sizeOf_spec]; omega)
          have hfilter : ((k, v) :: t).filter (fun p => p.1 ≠ k) = t := by
            have hhead : ((k, v) :: t).filter (fun p => p.1 ≠ k)
                = t.filter (fun p => p.1 ≠ k) := by
              simp [List.filter_cons]
            rw [hhead, filter_ne_of_not_mem t k hnd.1]
          simp only [merge_containers, hl, hv, hfilter, ht]
  · intro n ig xs b h1 h2
    cases b with
    | null => exact absurd rfl h1
    | list l => exact absurd rfl (h2 l)
    | str s => rfl
    | int i => rfl
    | dict d => rfl

/-- C8 (witness): idempotence at a concrete sequence-free mapping and the
single-element append at a concrete scalar right operand. -/
theorem merge_idempotent_witness :
    merge_containers 2000 true (Val.dict [("k", Val.int 1)]) (Val.dict [("k", Val.int 1)])
      = some (.ok (Val.dict [("k", Val.int 1)]))
    ∧ merge_containers 9 true (Val.list [Val.int 1]) (Val.str "s")
      = some (.ok (Val.list [Val.int 1, Val.str "s"])) := by
  constructor
  · exact merge_idempotent_and_additive.1 2000 true (Val.dict [("k", Val.int 1)])
      (SeqFree.dict _ (by intro q hq; simp at hq; subst hq; exact SeqFree.int 1))
      (WFv.dict _ (by simp) (by intro q hq; simp at hq; subst hq; exact WFv.int 1))
      (by decide)
  · exact merge_idempotent_and_additive.2.2.2 8 true [Val.int 1] (Val.str "s")
      (by simp) (by intro l; simp)

/-! ## C7 -/

/-- The value `_resolve` hands back for an entry (its identity outside the
terminating, non-raising case). -/
def resolveOut (defs : Val) (n : Nat) (v : Val) : Val :=
  match resolve defs n v with
  | some (.ok w) => w
  | _ => v

/-- The integer sort key of a resolved entry (0 outside the int case). -/
def intKey : String × Val → Int
  | (_, .int m) => m
  | _ => 0

/-- Non-decreasing resolved keys. -/
def keyLe (p q : String × Val) : Prop := intKey p ≤ intKey q

/-- The entries whose resolved value is the integer `m`. -/
def keyIs (m : Int) (p : String × Val) : Bool :=
  match p.2 with
  | .int i => decide (i = m)
  | _ => false

/-- The sublist of entries with sort key `m`, in order. -/
def filterKey (m : Int) (l : List (String × Val)) : List (String × Val) :=
  l.filter (keyIs m)

/-- An integer-valued `Val` is an `int`. -/
theorem isInt_exists {v : Val} (h : isInt v = true) : ∃ a : Int, v = .int a := by
  cases v with
  | int i => exact ⟨i, rfl⟩
  | str s => simp [isInt] at h
  | null => simp [isInt] at h
  | list l => simp [isInt] at h
  | dict d => simp [isInt] at h

/-- Python `<` on two ints with at least one step of fuel. -/
theorem pyLt_int (n : Nat) (hn : 1 ≤ n) (a b : Int) :
    pyLt n (Val.int a) (Val.int b) = some (.ok (decide (a < b))) := by
  obtain ⟨m, rfl⟩ := Nat.exists_eq_succ_of_ne_zero (Nat.one_le_iff_ne_zero.mp hn)
  rfl

/-- A scalar entry value never makes `_resolve` raise, so a terminating
resolution returns `resolveOut`. -/
theorem resolve_scalar_ok (defs : Val) (n : Nat) (v : Val) (hs : isScalar v = true)
    (hd : (resolve defs n v).isSome) :
    resolve defs n v = some (.ok (resolveOut defs n v)) := by
  cases defs with
  | dict d =>
    cases v with
    | str s =>
      cases hg : resolveGo d n (Val.str s) with
      | none => simp [resolve, hg] at hd
      | some w => simp [resolve, resolveOut, hg]
    | int i =>
      cases hg : resolveGo d n (Val.int i) with
      | none => simp [resolve, hg] at hd
      | some w => simp [resolve, resolveOut, hg]
    | null =>
      cases hg : resolveGo d n Val.null with
      | none => simp [resolve, hg] at hd
      | some w => simp [resolve, resolveOut, hg]
    | list l => simp [isScalar] at hs
    | dict m => simp [isScalar] at hs
  | str s => simp [resolve, resolveOut]
  | int i => simp [resolve, resolveOut]
  | null => simp [resolve, resolveOut]
  | list l => simp [resolve, resolveOut]

/-- Unfolding `filterKey` on a cons. -/
theorem filterKey_cons (m : Int) (p : String × Val) (l : List (String × Val)) :
    filterKey m (p :: l) = if keyIs m p then p :: filterKey m l else filterKey m l := by
  simp [filterKey, List.filter_cons]

/-- Inserting an int-keyed entry into an int-keyed sorted prefix succeeds,
keeps it sorted, puts the new entry after all entries of equal key and
changes no other key's sublist. -/
theorem insertSorted_int (n : Nat) (hn : 1 ≤ n) (xn : String) (a : Int) :
    ∀ (acc : List (String × Val)), (∀ p ∈ acc, isInt p.2 = true) →
      List.Pairwise keyLe acc →
      ∃ r, insertSorted n (xn, Val.int a) acc = some (.ok r)
        ∧ List.Pairwise keyLe r
        ∧ (∀ p ∈ r, isInt p.2 = true)
        ∧ (∀ p ∈ r, p = (xn, Val.int a) ∨ p ∈ acc)
        ∧ ∀ m, filterKey m r
            = filterKey m acc ++ (if a = m then [(xn, Val.int a)] else []) := by
  intro acc
  induction acc with
  | nil =>
    intro _ _
    refine ⟨[(xn, Val.int a)], rfl, List.pairwise_singleton _ _, ?_, ?_, ?_⟩
    · intro p hp; rw [List.mem_singleton] at hp; subst hp; rfl
    · intro p hp; rw [List.mem_singleton] at hp; exact Or.inl hp
    · intro m
      by_cases hm : a = m
      · simp [filterKey, keyIs, List.filter_cons, hm]
      · simp [filterKey, keyIs, List.filter_cons, hm]
  | cons y t ih =>
    intro hall hpw
    obtain ⟨yn, yv⟩ := y
    obtain ⟨b, hb⟩ := isInt_exists (hall (yn, yv) (by simp))
    subst hb
    obtain ⟨hyall, hpt⟩ := List.pairwise_cons.mp hpw
    have hparse : pyLt n (Val.int a) (Val.int b) = some (.ok (decide (a < b))) :=
      pyLt_int n hn a b
    by_cases hab : a < b
    · refine ⟨(xn, Val.int a) :: (yn, Val.int b) :: t, ?_, ?_, ?_, ?_, ?_⟩
      · simp [insertSorted, hparse, hab]
      · refine List.Pairwise.cons ?_ hpw
        intro q hq
        rcases List.mem_cons.mp hq with rfl | hq
        · exact Int.le_of_lt hab
        · exact le_trans (Int.le_of_lt hab) (hyall q hq)
      · intro p hp
        rcases List.mem_cons.mp hp with rfl | hp
        · rfl
        · exact hall p hp
      · intro p hp
        rcases List.mem_cons.mp hp with rfl | hp
        · exact Or.inl rfl
        · exact Or.inr hp
      · intro m
        have hnil : a = m → filterKey m ((yn, Val.int b) :: t) = [] := by
          intro hm
          subst hm
          refine List.filter_eq_nil_iff.mpr ?_
          intro q hq
          obtain ⟨qn, qv⟩ := q
          obtain ⟨c, hc⟩ := isInt_exists (hall (qn, qv) hq)
          subst hc
          have hac : a < c := by
            rcases List.mem_cons.mp hq with he | hq2
            · injection he with h1 h2
              injection h2 with h3
              omega
            · have hbc : b ≤ c := hyall (qn, Val.int c) hq2
              omega
          simp only [keyIs, decide_eq_true_eq]
          omega
        by_cases hm : a = m
        · subst hm
          rw [filterKey_cons, hnil rfl]
          simp [keyIs]
        · rw [filterKey_cons]
          simp [keyIs, hm]
    · have hba : b ≤ a := Int.not_lt.mp hab
      obtain ⟨r2, hr2, hpw2, hint2, hmem2, hfil2⟩ :=
        ih (fun q hq => hall q (by simp [hq])) hpt
      refine ⟨(yn, Val.int b) :: r2, ?_, ?_, ?_, ?_, ?_⟩
      · simp [insertSorted, hparse, hab, hr2]
      · refine List.Pairwise.cons ?_ hpw2
        intro q hq
        rcases hmem2 q hq with rfl | hq2
        · exact hba
        · exact hyall q hq2
      · intro p hp
        rcases List.mem_cons.mp hp with rfl | hp
        · rfl
        · exact hint2 p hp
      · intro p hp
        rcases List.mem_cons.mp hp with rfl | hp
        · exact Or.inr (by simp)
        · rcases hmem2 p hp with rfl | hp2
          · exact Or.inl rfl
          · exact Or.inr (by simp [hp2])
      · intro m
        by_cases hbm : b = m
        · subst hbm
          rw [filterKey_cons, filterKey_cons]
          simp [keyIs, hfil2 b]
        · rw [filterKey_cons, filterKey_cons]
          simp [keyIs, hbm, hfil2 m]

/-- The whole sort pass over int-keyed entries: it succeeds, sorts by key,
and preserves the input order within every key class. -/
theorem sortLoop_int (n : Nat) (hn : 1 ≤ n) :
    ∀ (rest acc : List (String × Val)),
      (∀ p ∈ rest, isInt p.2 = true) → (∀ p ∈ acc, isInt p.2 = true) →
      List.Pairwise keyLe acc →
      ∃ ys, sortLoop n acc rest = some (.ok ys)
        ∧ List.Pairwise keyLe ys
        ∧ ∀ m, filterKey m ys = filterKey m acc ++ filterKey m rest := by
  intro rest
  induction rest with
  | nil =>
    intro acc _ _ hpw
    exact ⟨acc, rfl, hpw, fun m => by simp [filterKey]⟩
  | cons x rest ih =>
    intro acc hrest hacc hpw
    obtain ⟨xname, xv⟩ := x
    obtain ⟨a, ha⟩ := isInt_exists (hrest (xname, xv) (by simp))
    subst ha
    obtain ⟨r, hr, hrpw, hrint, -, hrfil⟩ := insertSorted_int n hn xname a acc hacc hpw
    obtain ⟨ys, hys, hyspw, hysfil⟩ :=
      ih r (fun p hp => hrest p (by simp [hp])) hrint hrpw
    refine ⟨ys, ?_, hyspw, ?_⟩
    · simp [sortLoop, hr, hys]
    · intro m
      rw [hysfil m, hrfil m, filterKey_cons]
      by_cases hm : a = m
      · subst hm
        simp [keyIs]
      · simp [keyIs, hm]

/-- C7: the Initializer Orderer skips exactly the mapping-valued `pkg.init`
entries (without error), keeps every scalar-valued entry with its resolved
value, and emits the kept names sorted ascending by resolved key with a
stable sort: with entries `{"init_a": "P1", "init_b": "P2"}` and definitions
`{"P1": 5, "P2": 1}` the order is `["init_b", "init_a"]`, and entries
resolving to equal keys keep their original relative order (restricting the
sorted output to any one key value yields the input's sublist for that
value, in input order). -/
theorem orderer_scalars_sorted_stable :
    (∀ (defs : Val) (n : Nat) (name : String) (d : List (String × Val))
        (rest : List (String × Val)),
        build_cinits defs n ((name, Val.dict d) :: rest) = build_cinits defs n rest)
    ∧ (∀ (defs : Val) (n : Nat) (inits : List (String × Val)),
        (∀ p ∈ inits, isScalar p.2 = true ∧ (resolve defs n p.2).isSome) →
        build_cinits defs n inits
          = some (.ok (inits.map (fun p => (p.1, resolveOut defs n p.2)))))
    ∧ (∀ (n : Nat) (cs : List (String × Val)), 1 ≤ n →
        (∀ p ∈ cs, isInt p.2 = true) →
        ∃ ys, sortLoop n [] cs = some (.ok ys)
          ∧ List.Pairwise keyLe ys
          ∧ ∀ m, filterKey m ys = filterKey m cs)
    ∧ build_pkg 9 (Val.dict [("P1", Val.int 5), ("P2", Val.int 1)])
        [("init_a", Val.str "P1"), ("init_b", Val.str "P2")]
      = some (.ok ["init_b", "init_a"]) := by
  refine ⟨fun defs n name d rest => rfl, ?_, ?_, rfl⟩
  · intro defs n inits
    induction inits with
    | nil => intro _; rfl
    | cons p rest ih =>
      intro h
      obtain ⟨k, v⟩ := p
      have hp := h (k, v) (by simp)
      have hrest := ih (fun q hq => h q (by simp [hq]))
      cases v with
      | dict m => simp [isScalar] at hp
      | list l => simp [isScalar] at hp
      | str s =>
        have hres := resolve_scalar_ok defs n (Val.str s) hp.1 hp.2
        simp [build_cinits, hres, hrest]
      | int i =>
        have hres := resolve_scalar_ok defs n (Val.int i) hp.1 hp.2
        simp [build_cinits, hres, hrest]
      | null =>
        have hres := resolve_scalar_ok defs n Val.null hp.1 hp.2
        simp [build_cinits, hres, hrest]
  · intro n cs hn hall
    obtain ⟨ys, h1, h2, h3⟩ := sortLoop_int n hn cs [] hall (by simp) (by simp)
    exact ⟨ys, h1, h2, fun m => by simpa [filterKey] using h3 m⟩

/-- C7 (witness): a scalar entry is kept with its resolved value, a tie of
equal keys keeps input order, and a mapping-valued entry is skipped. -/
theorem orderer_scalars_sorted_stable_witness :
    build_cinits (Val.dict []) 1 [("a", Val.int 2)] = some (.ok [("a", Val.int 2)])
    ∧ (∃ ys, sortLoop 1 [] [("x", Val.int 1), ("y", Val.int 1)] = some (.ok ys)
        ∧ List.Pairwise keyLe ys
        ∧ ∀ m, filterKey m ys = filterKey m [("x", Val.int 1), ("y", Val.int 1)])
    ∧ build_cinits (Val.dict []) 1 [("d", Val.dict [])] = build_cinits (Val.dict []) 1 [] := by
  refine ⟨?_, ?_, ?_⟩
  · exact orderer_scalars_sorted_stable.2.1 (Val.dict []) 1 [("a", Val.int 2)] (by decide)
  · exact orderer_scalars_sorted_stable.2.2.1 1 [("x", Val.int 1), ("y", Val.int 1)]
      (by decide) (by decide)
  · exact orderer_scalars_sorted_stable.1 (Val.dict []) 1 "d" [] []

end Newt
